import Mathlib

/-!
# Verification of the far-call interception core (`crates/zksync/core/src/vm/farcall.rs`)

A shallow embedding of the module's data model and operations, followed by
theorems settling the specified properties.

Modelling conventions:
* machine integers (`u8`, `u16`, `u32`, `u128`, `U256`, `H160`) are embedded
  as `Nat`; the only arithmetic the code performs on them is saturating
  increment/decrement, which is made explicit;
* Rust `HashMap`s are embedded as association lists, iterated in list order
  (the source iterates in unspecified map order; entries are keyed uniquely);
* fallible operations (slice indexing that can panic, `assert!`, `expect`)
  return `Option`, with `none` marking the panic;
* external host structures (`CallStackEntry`, registers, memory) are embedded
  with exactly the fields the module reads or writes.
-/

namespace Farcall

/-! ## Basic host data model -/

/-- `PcOrImm` for the production encoding mode is `u16`; `saturating_add(1)`. -/
def saturatingAdd1U16 (pc : Nat) : Nat := min (pc + 1) (2 ^ 16 - 1)

/-- The fields of the host `CallStackEntry` that this module reads or writes.
`pc`, `sp`, `exception_handler_location` are `u16`; the pages are `u32`;
the addresses are `H160`; `context_u128_value` is `u128`. -/
structure CallStackEntry where
  pc : Nat
  sp : Nat
  exception_handler_location : Nat
  base_memory_page : Nat
  code_page : Nat
  this_address : Nat
  code_address : Nat
  is_local_frame : Bool
  context_u128_value : Nat
deriving DecidableEq

/-- A register value: 256-bit word plus pointer tag (`PrimitiveValue`). -/
structure PrimitiveValue where
  value : Nat
  is_pointer : Bool
deriving DecidableEq

/-- Fat pointer (page, offset, start, length), each field a `u32`. -/
structure FatPointer where
  offset : Nat
  memory_page : Nat
  start : Nat
  length : Nat
deriving DecidableEq

/-- Models `FatPointer::from_u256` of the external `zkevm_opcode_defs` crate:
the low 128 bits of the word hold `offset`, `memory_page`, `start`, `length`
as consecutive little-endian 32-bit fields. -/
def FatPointer.fromU256 (v : Nat) : FatPointer :=
  { offset := v % 2 ^ 32
    memory_page := v / 2 ^ 32 % 2 ^ 32
    start := v / 2 ^ 64 % 2 ^ 32
    length := v / 2 ^ 96 % 2 ^ 32 }

/-- Models `FatPointer::to_u256` of the external `zkevm_opcode_defs` crate. -/
def FatPointer.toU256 (f : FatPointer) : Nat :=
  f.offset + f.memory_page * 2 ^ 32 + f.start * 2 ^ 64 + f.length * 2 ^ 96

/-! ## `ImmediateReturn`, `CallDepth`, `CallAction`, `CallActions` -/

/-- Mirrors `struct ImmediateReturn`. -/
structure ImmediateReturn where
  return_data : List Nat
  return_base_memory_page : Nat
  next_pc : Nat
  next_code_page : Nat
  next_base_memory_page : Nat
  next_sp : Nat
  next_exception_handler_location : Nat
  next_this_address : Nat
  next_is_local_frame : Bool
  next_context_u128_value : Nat
deriving DecidableEq

/-- Mirrors `enum CallAction` (addresses embedded as `Nat`). -/
inductive CallAction where
  | SetMessageSender (addr : Nat)
  | SetThisAddress (addr : Nat)
deriving DecidableEq

/-- Mirrors `struct CallActions`.  `CallDepth` is a `u8` newtype whose only
operation is saturating decrement; it is embedded as `Nat` (Nat subtraction
is already saturating). -/
structure CallActions where
  immediate : List CallAction
  pending : List (Nat × CallAction)
deriving DecidableEq

/-- Mirrors `CallActions::push`: depth `0` goes to `immediate`, otherwise
`(depth.decrement(), action)` is appended to `pending`. -/
def CallActions.push (s : CallActions) (depth : Nat) (action : CallAction) :
    CallActions :=
  if depth = 0 then { s with immediate := s.immediate ++ [action] }
  else { s with pending := s.pending ++ [(depth - 1, action)] }

/-- The loop body of `CallActions::track`: walks `pending` in order, moving
depth-0 entries to an immediate list and re-queuing the rest decremented. -/
def trackStep : List (Nat × CallAction) → List CallAction × List (Nat × CallAction)
  | [] => ([], [])
  | p :: rest =>
    let r := trackStep rest
    if p.1 = 0 then (p.2 :: r.1, r.2) else (r.1, (p.1 - 1, p.2) :: r.2)

/-- Mirrors `CallActions::track`. -/
def CallActions.track (s : CallActions) : CallActions :=
  { immediate := s.immediate ++ (trackStep s.pending).1
    pending := (trackStep s.pending).2 }

/-- Mirrors `CallActions::take_immediate` (`std::mem::take`): returns the
immediate list and the state with it emptied. -/
def CallActions.takeImmediate (s : CallActions) : List CallAction × CallActions :=
  (s.immediate, { s with immediate := [] })

/-! ## `FarCallHandler` -/

/-- Mirrors `FarCallOpcode` of the external VM. -/
inductive FarCallOpcode where
  | Normal
  | Delegate
  | Mimic
deriving DecidableEq

/-- Mirrors `struct FarCallHandler`. -/
structure FarCallHandler where
  before_far_call_stack : Option CallStackEntry
  after_far_call_stack : Option CallStackEntry
  current_far_call : Option FarCallOpcode
  immediate_return : Option ImmediateReturn
  call_actions : CallActions
deriving DecidableEq

/-- Mirrors `FarCallHandler::set_immediate_return`.  When no return can be
built (no recorded opcode or no `before` snapshot) the source logs a warning
and leaves the handler untouched. -/
def FarCallHandler.setImmediateReturn (h : FarCallHandler) (return_data : List Nat) :
    FarCallHandler :=
  let immediate_return := h.current_far_call.bind fun call =>
    match call with
    | FarCallOpcode.Normal | FarCallOpcode.Delegate =>
      h.before_far_call_stack.map fun before =>
        { return_data := return_data
          return_base_memory_page := before.base_memory_page
          next_pc := saturatingAdd1U16 before.pc
          next_code_page := before.code_page
          next_base_memory_page := before.base_memory_page
          next_sp := before.sp
          next_exception_handler_location := before.exception_handler_location
          next_this_address := before.this_address
          next_is_local_frame := false
          next_context_u128_value := 0 }
    | FarCallOpcode.Mimic =>
      h.before_far_call_stack.map fun before =>
        { return_data := return_data
          return_base_memory_page :=
            (h.after_far_call_stack.map fun after => after.base_memory_page).getD
              before.base_memory_page
          next_pc := saturatingAdd1U16 before.pc
          next_code_page := before.code_page
          next_base_memory_page := before.base_memory_page
          next_sp := before.sp
          next_exception_handler_location := before.exception_handler_location
          next_this_address := before.this_address
          next_is_local_frame := before.is_local_frame
          next_context_u128_value := 0 }
  match immediate_return with
  | some ir => { h with immediate_return := some ir }
  | none => h

/-- Register index of the implicit returndata params register (external
constant `RET_IMPLICIT_RETURNDATA_PARAMS_REGISTER`). -/
def RET_IMPLICIT_RETURNDATA_PARAMS_REGISTER : Nat := 1

/-- Models `CallStackEntry::heap_page_from_base` of the external `zk_evm`
crate: the heap page of a frame is its base page plus 2. -/
def heapPageFromBase (base : Nat) : Nat := base + 2

/-- `U256::from_big_endian` on a byte slice of length at most 32. -/
def wordFromBigEndianBytes (bs : List Nat) : Nat :=
  bs.foldl (fun acc b => acc * 256 + b) 0

/-- `Vec::chunks(32)`: splits a byte list into consecutive 32-byte chunks,
the last one possibly shorter; empty input gives no chunks. -/
def chunks32 (l : List Nat) : List (List Nat) :=
  if h : l = [] then []
  else l.take 32 :: chunks32 (l.drop 32)
termination_by l.length
decreasing_by
  simp only [List.length_drop]
  have : 0 < l.length := List.length_pos.mpr h
  omega

/-- The fields of the host `ZkSyncVmState` that `maybe_return_early` touches:
registers, word-addressed paged memory, the current (top) callstack entry and
the timestamp. -/
structure ZkSyncVmStateModel where
  registers : Nat → PrimitiveValue
  memory_words : Nat → Nat → Nat
  callstack_current : CallStackEntry
  timestamp : Nat

/-- Models `SimpleMemory::populate_page`: writes the given (slot, word) pairs
into one page. -/
def populatePage (mem : Nat → Nat → Nat) (page : Nat) (data : List (Nat × Nat)) :
    Nat → Nat → Nat :=
  data.foldl
    (fun m kv => fun p slot => if p = page ∧ slot = kv.1 then kv.2 else m p slot)
    mem

/-- Mirrors `FarCallHandler::maybe_return_early`: if an immediate return is
pending, consume it, write the return data and fat pointer, and overwrite the
current top frame's fields with the `next_*` values. -/
def FarCallHandler.maybeReturnEarly (h : FarCallHandler) (state : ZkSyncVmStateModel) :
    FarCallHandler × ZkSyncVmStateModel :=
  match h.immediate_return with
  | none => (h, state)
  | some immediate_return =>
    let h' := { h with immediate_return := none }
    let data_chunks := chunks32 immediate_return.return_data
    let return_memory_page := heapPageFromBase immediate_return.return_base_memory_page
    let return_fat_ptr : FatPointer :=
      { memory_page := return_memory_page
        offset := 0
        start := 0
        length := data_chunks.length * 32 }
    let start_slot := return_fat_ptr.start / 32
    let data := data_chunks.enum.map fun p => (start_slot + p.1, wordFromBigEndianBytes p.2)
    let registers := fun i =>
      if i = RET_IMPLICIT_RETURNDATA_PARAMS_REGISTER then
        ({ value := return_fat_ptr.toU256, is_pointer := true } : PrimitiveValue)
      else state.registers i
    let memory_words := populatePage state.memory_words return_fat_ptr.memory_page data
    let current := state.callstack_current
    let current :=
      { current with
        pc := immediate_return.next_pc
        base_memory_page := immediate_return.next_base_memory_page
        code_page := immediate_return.next_code_page
        context_u128_value := immediate_return.next_context_u128_value
        sp := immediate_return.next_sp
        exception_handler_location := immediate_return.next_exception_handler_location
        this_address := immediate_return.next_this_address
        is_local_frame := immediate_return.next_is_local_frame }
    (h', { state with
           registers := registers
           memory_words := memory_words
           callstack_current := current })

/-! ## `MockedCalls` -/

/-- Mirrors `struct MockCall` (address as `Nat`, value as `Option Nat`). -/
structure MockCall where
  address : Nat
  value : Option Nat
  calldata : List Nat
deriving DecidableEq

/-- Mirrors `struct MockedCalls`; the two `HashMap`s are embedded as
association lists iterated in list order. -/
structure MockedCalls where
  with_value : List (MockCall × List Nat)
  without_value : List (MockCall × List Nat)
deriving DecidableEq

/-- `call.value.map_or(true, |value| value == actual_value)`. -/
def valueMatches (v : Option Nat) (actual_value : Nat) : Bool :=
  match v with
  | none => true
  | some value => value == actual_value

/-- The `best_match.map_or(..)` update of the scan: a newly found candidate
replaces the best so far only when its matched length is strictly greater. -/
def updateBest (best_match : Option (Nat × List Nat)) (matched_len : Nat)
    (call_return_data : List Nat) : Option (Nat × List Nat) :=
  match best_match with
  | none => some (matched_len, call_return_data)
  | some (bl, br) =>
    if matched_len > bl then some (matched_len, call_return_data) else some (bl, br)

/-- The scan loop of `MockedCalls::get_matching_return_data`, carrying the
running `best_match` of `(matched_len, return_data)`. -/
def matchLoop (code_address : Nat) (actual_calldata : List Nat) (actual_value : Nat) :
    List (MockCall × List Nat) → Option (Nat × List Nat) → Option (List Nat)
  | [], best_match => best_match.map fun b => b.2
  | (call, call_return_data) :: rest, best_match =>
    if call.address == code_address then
      if valueMatches call.value actual_value then
        if call.calldata.isPrefixOf actual_calldata then
          if call.calldata.length == actual_calldata.length then
            some call_return_data
          else
            matchLoop code_address actual_calldata actual_value rest
              (updateBest best_match call.calldata.length call_return_data)
        else matchLoop code_address actual_calldata actual_value rest best_match
      else matchLoop code_address actual_calldata actual_value rest best_match
    else matchLoop code_address actual_calldata actual_value rest best_match

/-- Mirrors `MockedCalls::get_matching_return_data`: one scan over the
value-constrained entries chained with the unconstrained ones. -/
def MockedCalls.getMatchingReturnData (m : MockedCalls) (code_address : Nat)
    (actual_calldata : List Nat) (actual_value : Nat) : Option (List Nat) :=
  matchLoop code_address actual_calldata actual_value
    (m.with_value ++ m.without_value) none

/-- The candidate condition of the scan: address equal, value constraint
satisfied, stored calldata a prefix of the query calldata. -/
def isCandidate (code_address : Nat) (actual_calldata : List Nat) (actual_value : Nat)
    (e : MockCall × List Nat) : Bool :=
  e.1.address == code_address && valueMatches e.1.value actual_value &&
    e.1.calldata.isPrefixOf actual_calldata

/-- An exact candidate: a candidate whose stored calldata has the full query
calldata length. -/
def isExactCandidate (code_address : Nat) (actual_calldata : List Nat)
    (actual_value : Nat) (e : MockCall × List Nat) : Bool :=
  isCandidate code_address actual_calldata actual_value e &&
    e.1.calldata.length == actual_calldata.length

/-! ## `ParsedFarCall` and its accessors -/

/-- Mirrors `enum ParsedFarCall` (`ValueCall` / `SimpleCall`); the source
field `to` is renamed `to_addr` (`to` is reserved in Lean). -/
inductive ParsedFarCall where
  | ValueCall (to_addr : Nat) (value : Nat) (calldata : List Nat) (recipient : Nat)
      (is_system_call : Bool)
  | SimpleCall (to_addr : Nat) (value : Nat) (calldata : List Nat)
deriving DecidableEq

/-- Mirrors `ParsedFarCall::calldata`. -/
def ParsedFarCall.calldata : ParsedFarCall → List Nat
  | ParsedFarCall.ValueCall _ _ calldata _ _ => calldata
  | ParsedFarCall.SimpleCall _ _ calldata => calldata

/-- A hex digit character, lower case (`hex::encode` digit alphabet). -/
def hexDigit (n : Nat) : Char :=
  if n < 10 then Char.ofNat (48 + n) else Char.ofNat (87 + n)

/-- Models `hex::encode` on a byte list. -/
def hexEncode (bs : List Nat) : String :=
  String.mk (bs.flatMap fun b => [hexDigit (b / 16), hexDigit (b % 16)])

/-- Mirrors `ParsedFarCall::selector`: empty string when the calldata is
shorter than 4 bytes, else the hex of its first 4 bytes. -/
def ParsedFarCall.selector (c : ParsedFarCall) : String :=
  let calldata := c.calldata
  if calldata.length < 4 then String.mk [] else hexEncode (calldata.take 4)

/-- Models a Rust range slice `l[i..]`, which panics (`none`) when `i`
exceeds the length. -/
def sliceFrom (l : List Nat) (i : Nat) : Option (List Nat) :=
  if i ≤ l.length then some (l.drop i) else none

/-- Mirrors `ParsedFarCall::params`: slices off the 4-byte selector (panic
when the calldata is shorter), then chunks the remainder into 32-byte words;
`try_into().expect(..)` panics (`none`) when a chunk is not exactly 32 bytes. -/
def ParsedFarCall.params (c : ParsedFarCall) : Option (List (List Nat)) :=
  match sliceFrom c.calldata 4 with
  | none => none
  | some params =>
    if params.isEmpty then some []
    else
      let cs := chunks32 params
      if cs.all fun ch => ch.length == 32 then some cs else none

/-- Mirrors `ParsedFarCall::param_bytes_after`: slices off the 4-byte selector
(panic when the calldata is shorter), returns `[]` when the remainder is empty
or shorter than `32 * offset_words`, else the bytes after that offset. -/
def ParsedFarCall.paramBytesAfter (c : ParsedFarCall) (offset_words : Nat) :
    Option (List Nat) :=
  match sliceFrom c.calldata 4 with
  | none => none
  | some params =>
    if params.isEmpty || params.length < 32 * offset_words then some []
    else some (params.drop (32 * offset_words))

/-! ## `parse` -/

/-- External constant: index of the implicit calldata fat-pointer register. -/
def CALL_IMPLICIT_CALLDATA_FAT_PTR_REGISTER : Nat := 1

/-- External constant: `CALL_SYSTEM_ABI_REGISTERS.start`. -/
def CALL_SYSTEM_ABI_REGISTERS_START : Nat := 2

/-- `MSG_VALUE_SIMULATOR_ADDRESS_EXTRA_PARAM_REG_OFFSET`. -/
def MSG_VALUE_SIMULATOR_ADDRESS_EXTRA_PARAM_REG_OFFSET : Nat :=
  CALL_SYSTEM_ABI_REGISTERS_START

/-- `MSG_VALUE_SIMULATOR_DATA_VALUE_REG`. -/
def MSG_VALUE_SIMULATOR_DATA_VALUE_REG : Nat :=
  MSG_VALUE_SIMULATOR_ADDRESS_EXTRA_PARAM_REG_OFFSET

/-- `MSG_VALUE_SIMULATOR_DATA_ADDRESS_REG`. -/
def MSG_VALUE_SIMULATOR_DATA_ADDRESS_REG : Nat :=
  MSG_VALUE_SIMULATOR_ADDRESS_EXTRA_PARAM_REG_OFFSET + 1

/-- `MSG_VALUE_SIMULATOR_DATA_IS_SYSTEM_REG`. -/
def MSG_VALUE_SIMULATOR_DATA_IS_SYSTEM_REG : Nat :=
  MSG_VALUE_SIMULATOR_ADDRESS_EXTRA_PARAM_REG_OFFSET + 2

/-- `MSG_VALUE_SIMULATOR_IS_SYSTEM_BIT`. -/
def MSG_VALUE_SIMULATOR_IS_SYSTEM_BIT : Nat := 1

/-- External constant: the well-known value-simulator system contract address
(`MSG_VALUE_SIMULATOR_ADDRESS`, `0x...8009`). -/
def MSG_VALUE_SIMULATOR_ADDRESS : Nat := 0x8009

/-- The fields of the host `VmLocalStateData` that `parse` reads: the
registers and the current (top) callstack entry. -/
structure VmLocalStateDataModel where
  registers : Nat → PrimitiveValue
  callstack_current : CallStackEntry

/-- The byte view of the host `SimpleMemory` that `read_unaligned_bytes`
exposes: page, absolute byte index, byte value. -/
structure SimpleMemoryModel where
  bytes : Nat → Nat → Nat

/-- Models `SimpleMemory::read_unaligned_bytes`. -/
def readUnalignedBytes (memory : SimpleMemoryModel) (page start length : Nat) :
    List Nat :=
  (List.range length).map fun i => memory.bytes page (start + i)

/-- Mirrors `fn parse`.  The source asserts that the implicit calldata
register is pointer-tagged; the failing assertion is embedded as `none`.
`U256::to_h256` followed by `H256::to_h160` keeps the low 160 bits;
`low_u128` keeps the low 128 bits; `U256::from(u128)` is the identity here. -/
def parse (state : VmLocalStateDataModel) (memory : SimpleMemoryModel) :
    Option ParsedFarCall :=
  let current := state.callstack_current
  let reg := state.registers
  let value := current.context_u128_value
  let packed_abi := reg CALL_IMPLICIT_CALLDATA_FAT_PTR_REGISTER
  if packed_abi.is_pointer then
    let far_call_ptr := FatPointer.fromU256 packed_abi.value
    let calldata :=
      readUnalignedBytes memory far_call_ptr.memory_page far_call_ptr.start
        far_call_ptr.length
    if current.code_address = MSG_VALUE_SIMULATOR_ADDRESS then
      let value := (reg MSG_VALUE_SIMULATOR_DATA_VALUE_REG).value % 2 ^ 128
      let address := (reg MSG_VALUE_SIMULATOR_DATA_ADDRESS_REG).value % 2 ^ 160
      let is_system_call :=
        ((reg MSG_VALUE_SIMULATOR_DATA_IS_SYSTEM_REG).value).testBit
          MSG_VALUE_SIMULATOR_IS_SYSTEM_BIT
      some (ParsedFarCall.ValueCall current.code_address value calldata address
        is_system_call)
    else
      some (ParsedFarCall.SimpleCall current.code_address value calldata)
  else none

/-! ## Scheduler runs: interleavings of `track` and `take_immediate` -/

/-- An observable scheduler operation: an advancement tick (`track`, invoked
once per far-call boundary) or a drain (`take_immediate`). -/
inductive SchedOp where
  | track
  | drain
deriving DecidableEq

/-- Runs a sequence of scheduler operations, collecting everything the drains
yield, in order. -/
def runOps : List SchedOp → CallActions → CallActions × List CallAction
  | [], s => (s, [])
  | SchedOp.track :: ops, s => runOps ops s.track
  | SchedOp.drain :: ops, s =>
    ((runOps ops s.takeImmediate.2).1,
      s.takeImmediate.1 ++ (runOps ops s.takeImmediate.2).2)

/-- `hasDueDrain k ops` holds when `ops` contains a drain preceded by at
least `k` tracks: the first moment a drain can observe an action that still
needs `k` advancement ticks. -/
def hasDueDrain : Nat → List SchedOp → Bool
  | _, [] => false
  | k, SchedOp.track :: ops => hasDueDrain (k - 1) ops
  | k, SchedOp.drain :: ops => if k = 0 then true else hasDueDrain k ops

/-- The depths at which a given action occurs in a pending list. -/
def actionDepths (a : CallAction) (l : List (Nat × CallAction)) : List Nat :=
  (l.filter fun p => decide (p.2 = a)).map fun p => p.1

/-! ## Lemmas about the mock-registry scan -/

/-- One unfolding step of the scan, phrased through the candidate predicates. -/
theorem matchLoop_cons (addr : Nat) (cd : List Nat) (v : Nat)
    (p : MockCall × List Nat) (l : List (MockCall × List Nat))
    (best : Option (Nat × List Nat)) :
    matchLoop addr cd v (p :: l) best =
      if isExactCandidate addr cd v p then some p.2
      else if isCandidate addr cd v p then
        matchLoop addr cd v l (updateBest best p.1.calldata.length p.2)
      else matchLoop addr cd v l best := by
  obtain ⟨call, ret⟩ := p
  rw [matchLoop]
  simp only [isExactCandidate, isCandidate]
  cases hA : call.address == addr <;>
    cases hV : valueMatches call.value v <;>
      cases hP : call.calldata.isPrefixOf cd <;>
        cases hL : call.calldata.length == cd.length <;>
          simp [hA, hV, hP, hL]

/-- If an exact candidate occurs in the remaining list, the scan returns the
first one's return data, whatever the best-so-far. -/
theorem matchLoop_exact (addr : Nat) (cd : List Nat) (v : Nat)
    (l : List (MockCall × List Nat)) (e : MockCall × List Nat)
    (hfind : l.find? (isExactCandidate addr cd v) = some e) :
    ∀ best, matchLoop addr cd v l best = some e.2 := by
  induction l with
  | nil => simp at hfind
  | cons p rest ih =>
    intro best
    rw [matchLoop_cons]
    by_cases hx : isExactCandidate addr cd v p = true
    · rw [List.find?_cons_of_pos _ hx] at hfind
      obtain rfl : p = e := by simpa using hfind
      simp [hx]
    · rw [List.find?_cons_of_neg _ hx] at hfind
      simp only [hx, if_false]
      by_cases hc : isCandidate addr cd v p = true <;> simp [hc, ih hfind]

/-- If every remaining candidate's matched length is at most the best-so-far
length, and no exact candidate remains, the best-so-far survives the scan. -/
theorem matchLoop_keepBest (addr : Nat) (cd : List Nat) (v : Nat)
    (l : List (MockCall × List Nat)) (bl : Nat) (br : List Nat)
    (hne : ∀ x ∈ l, isExactCandidate addr cd v x = false)
    (hle : ∀ x ∈ l, isCandidate addr cd v x = true → x.1.calldata.length ≤ bl) :
    matchLoop addr cd v l (some (bl, br)) = some br := by
  induction l with
  | nil => simp [matchLoop]
  | cons p rest ih =>
    rw [matchLoop_cons]
    have hx := hne p (List.mem_cons_self _ _)
    simp only [hx, Bool.false_eq_true, if_false]
    by_cases hc : isCandidate addr cd v p = true
    · have hlen : p.1.calldata.length ≤ bl := hle p (List.mem_cons_self _ _) hc
      have : updateBest (some (bl, br)) p.1.calldata.length p.2 = some (bl, br) := by
        simp [updateBest, Nat.not_lt.mpr hlen]
      rw [hc]
      simp only [if_true, this]
      exact ih (fun x hx => hne x (List.mem_cons_of_mem _ hx))
        (fun x hx => hle x (List.mem_cons_of_mem _ hx))
    · simp only [hc, if_false]
      exact ih (fun x hx => hne x (List.mem_cons_of_mem _ hx))
        (fun x hx => hle x (List.mem_cons_of_mem _ hx))

/-- With no exact candidate anywhere, the first candidate attaining the
maximal matched length wins the scan, provided the incoming best-so-far is
strictly below that length. -/
theorem matchLoop_firstMax (addr : Nat) (cd : List Nat) (v : Nat)
    (l1 : List (MockCall × List Nat)) (e : MockCall × List Nat)
    (l2 : List (MockCall × List Nat))
    (hne : ∀ x ∈ l1 ++ e :: l2, isExactCandidate addr cd v x = false)
    (hce : isCandidate addr cd v e = true)
    (h1 : ∀ x ∈ l1, isCandidate addr cd v x = true →
      x.1.calldata.length < e.1.calldata.length)
    (h2 : ∀ x ∈ l2, isCandidate addr cd v x = true →
      x.1.calldata.length ≤ e.1.calldata.length) :
    ∀ best : Option (Nat × List Nat),
      (∀ bl br, best = some (bl, br) → bl < e.1.calldata.length) →
      matchLoop addr cd v (l1 ++ e :: l2) best = some e.2 := by
  induction l1 with
  | nil =>
    intro best hb
    simp only [List.nil_append]
    rw [matchLoop_cons]
    have hx := hne e (List.mem_cons_self _ _)
    simp only [hx, Bool.false_eq_true, if_false, hce, if_true]
    have hup : updateBest best e.1.calldata.length e.2 =
        some (e.1.calldata.length, e.2) := by
      cases best with
      | none => simp [updateBest]
      | some b =>
        obtain ⟨bl, br⟩ := b
        simp [updateBest, hb bl br rfl]
    rw [hup]
    exact matchLoop_keepBest addr cd v l2 _ _
      (fun x hx => hne x (List.mem_cons_of_mem _ hx)) h2
  | cons p l1' ih =>
    intro best hb
    simp only [List.cons_append]
    rw [matchLoop_cons]
    have hx := hne p (List.mem_cons_self _ _)
    simp only [hx, Bool.false_eq_true, if_false]
    by_cases hc : isCandidate addr cd v p = true
    · have hlt : p.1.calldata.length < e.1.calldata.length :=
        h1 p (List.mem_cons_self _ _) hc
      simp only [hc, if_true]
      refine ih (fun x hx => hne x (List.mem_cons_of_mem _ hx))
        (fun x hx => h1 x (List.mem_cons_of_mem _ hx)) _ ?_
      intro bl br hbl
      cases best with
      | none =>
        simp only [updateBest] at hbl
        exact (Prod.mk.inj (Option.some.inj hbl)).1 ▸ hlt
      | some b =>
        obtain ⟨bl0, br0⟩ := b
        have hbl0 := hb bl0 br0 rfl
        simp only [updateBest] at hbl
        by_cases hgt : p.1.calldata.length > bl0
        · rw [if_pos hgt] at hbl
          exact (Prod.mk.inj (Option.some.inj hbl)).1 ▸ hlt
        · rw [if_neg hgt] at hbl
          exact (Prod.mk.inj (Option.some.inj hbl)).1 ▸ hbl0
    · simp only [hc, if_false]
      exact ih (fun x hx => hne x (List.mem_cons_of_mem _ hx))
        (fun x hx => h1 x (List.mem_cons_of_mem _ hx)) best hb

/-- The scan never loses a non-`none` best-so-far entirely. -/
theorem matchLoop_isSome_of_best (addr : Nat) (cd : List Nat) (v : Nat)
    (l : List (MockCall × List Nat)) :
    ∀ bl br, (matchLoop addr cd v l (some (bl, br))).isSome := by
  induction l with
  | nil => intro bl br; simp [matchLoop]
  | cons p rest ih =>
    intro bl br
    rw [matchLoop_cons]
    by_cases hx : isExactCandidate addr cd v p = true
    · simp [hx]
    · simp only [hx, Bool.false_eq_true, if_false]
      by_cases hc : isCandidate addr cd v p = true
      · simp only [hc, if_true, updateBest]
        by_cases hgt : p.1.calldata.length > bl
        · rw [if_pos hgt]; exact ih _ _
        · rw [if_neg hgt]; exact ih _ _
      · simp only [hc, if_false]; exact ih _ _

/-- `updateBest` always yields a pair. -/
theorem updateBest_eq_some (best : Option (Nat × List Nat)) (len : Nat)
    (ret : List Nat) : ∃ bl br, updateBest best len ret = some (bl, br) := by
  cases best with
  | none => exact ⟨len, ret, rfl⟩
  | some b =>
    obtain ⟨bl0, br0⟩ := b
    simp only [updateBest]
    by_cases hgt : len > bl0
    · rw [if_pos hgt]; exact ⟨len, ret, rfl⟩
    · rw [if_neg hgt]; exact ⟨bl0, br0, rfl⟩

/-- If the list contains a candidate, the scan yields a result. -/
theorem matchLoop_isSome_of_candidate (addr : Nat) (cd : List Nat) (v : Nat)
    (l : List (MockCall × List Nat)) (c : MockCall × List Nat) (hc : c ∈ l)
    (hcand : isCandidate addr cd v c = true) :
    ∀ best, (matchLoop addr cd v l best).isSome := by
  induction l with
  | nil => cases hc
  | cons p rest ih =>
    intro best
    rw [matchLoop_cons]
    by_cases hx : isExactCandidate addr cd v p = true
    · simp [hx]
    · simp only [hx, Bool.false_eq_true, if_false]
      by_cases hpc : isCandidate addr cd v p = true
      · simp only [hpc, if_true]
        obtain ⟨bl, br, heq⟩ := updateBest_eq_some best p.1.calldata.length p.2
        rw [heq]
        exact matchLoop_isSome_of_best addr cd v rest bl br
      · simp only [hpc, if_false]
        rcases List.mem_cons.mp hc with heq | hmem
        · exact absurd (heq ▸ hcand) (by simp [hpc])
        · exact ih hmem best

/-- Provenance and maximality of a scan result when no exact candidate is
present: the result is either the incoming best-so-far, dominating every
candidate, or the return data of a candidate whose matched length dominates
every candidate and the incoming best-so-far. -/
theorem matchLoop_max (addr : Nat) (cd : List Nat) (v : Nat)
    (l : List (MockCall × List Nat))
    (hne : ∀ x ∈ l, isExactCandidate addr cd v x = false) :
    ∀ best r, matchLoop addr cd v l best = some r →
      (∃ bl, best = some (bl, r) ∧
        ∀ x ∈ l, isCandidate addr cd v x = true → x.1.calldata.length ≤ bl) ∨
      (∃ x, x ∈ l ∧ isCandidate addr cd v x = true ∧ r = x.2 ∧
        (∀ y ∈ l, isCandidate addr cd v y = true →
          y.1.calldata.length ≤ x.1.calldata.length) ∧
        (∀ bl br, best = some (bl, br) → bl ≤ x.1.calldata.length)) := by
  induction l with
  | nil =>
    intro best r hr
    cases best with
    | none => simp [matchLoop] at hr
    | some b =>
      obtain ⟨bl, br⟩ := b
      simp only [matchLoop] at hr
      have hr' : br = r := by simpa using hr
      left
      exact ⟨bl, by rw [hr'], by simp⟩
  | cons p rest ih =>
    intro best r hr
    have hnr : ∀ x ∈ rest, isExactCandidate addr cd v x = false :=
      fun x hx => hne x (List.mem_cons_of_mem _ hx)
    rw [matchLoop_cons] at hr
    have hx := hne p (List.mem_cons_self _ _)
    simp only [hx, Bool.false_eq_true, if_false] at hr
    by_cases hc : isCandidate addr cd v p = true
    · simp only [hc, if_true] at hr
      rcases ih hnr _ _ hr with ⟨bl, hbl, hdom⟩ | ⟨x, hmem, hxc, hrx, hdom, hbest⟩
      · -- the survivor is the updated best-so-far
        cases best with
        | none =>
          simp only [updateBest] at hbl
          have h1 := (Prod.mk.inj (Option.some.inj hbl)).1
          have h2 := (Prod.mk.inj (Option.some.inj hbl)).2
          right
          refine ⟨p, List.mem_cons_self _ _, hc, h2.symm, ?_, by simp⟩
          intro y hy hyc
          rcases List.mem_cons.mp hy with rfl | hym
          · exact Nat.le_refl _
          · exact (hdom y hym hyc).trans (Nat.le_of_eq h1.symm)
        | some b =>
          obtain ⟨bl0, br0⟩ := b
          simp only [updateBest] at hbl
          by_cases hgt : p.1.calldata.length > bl0
          · rw [if_pos hgt] at hbl
            have h1 := (Prod.mk.inj (Option.some.inj hbl)).1
            have h2 := (Prod.mk.inj (Option.some.inj hbl)).2
            right
            refine ⟨p, List.mem_cons_self _ _, hc, h2.symm, ?_, ?_⟩
            · intro y hy hyc
              rcases List.mem_cons.mp hy with rfl | hym
              · exact Nat.le_refl _
              · exact (hdom y hym hyc).trans (Nat.le_of_eq h1.symm)
            · intro bl1 br1 hb1
              have heq := (Prod.mk.inj (Option.some.inj hb1)).1
              exact heq ▸ Nat.le_of_lt hgt
          · rw [if_neg hgt] at hbl
            have h1 := (Prod.mk.inj (Option.some.inj hbl)).1
            have h2 := (Prod.mk.inj (Option.some.inj hbl)).2
            left
            refine ⟨bl0, by rw [h2], ?_⟩
            intro y hy hyc
            rcases List.mem_cons.mp hy with rfl | hym
            · exact Nat.not_lt.mp hgt
            · exact (hdom y hym hyc).trans (Nat.le_of_eq h1.symm)
      · -- the survivor comes from the rest of the list
        right
        refine ⟨x, List.mem_cons_of_mem _ hmem, hxc, hrx, ?_, ?_⟩
        · intro y hy hyc
          rcases List.mem_cons.mp hy with rfl | hym
          · -- the head's length reached the updated best, which x dominates
            cases best with
            | none => exact hbest _ _ rfl
            | some b =>
              obtain ⟨bl0, br0⟩ := b
              by_cases hgt : y.1.calldata.length > bl0
              · exact hbest _ _ (by simp only [updateBest]; rw [if_pos hgt])
              · exact (Nat.not_lt.mp hgt).trans
                  (hbest _ _ (by simp only [updateBest]; rw [if_neg hgt]))
          · exact hdom y hym hyc
        · intro bl1 br1 hb1
          subst hb1
          by_cases hgt : p.1.calldata.length > bl1
          · exact Nat.le_of_lt (Nat.lt_of_lt_of_le hgt
              (hbest _ _ (by simp only [updateBest]; rw [if_pos hgt])))
          · exact hbest _ _ (by simp only [updateBest]; rw [if_neg hgt])
    · simp only [hc, if_false] at hr
      rcases ih hnr _ _ hr with ⟨bl, hbl, hdom⟩ | ⟨x, hmem, hxc, hrx, hdom, hbest⟩
      · left
        refine ⟨bl, hbl, ?_⟩
        intro y hy hyc
        rcases List.mem_cons.mp hy with rfl | hym
        · exact absurd hyc (by simp [hc])
        · exact hdom y hym hyc
      · right
        refine ⟨x, List.mem_cons_of_mem _ hmem, hxc, hrx, ?_, hbest⟩
        intro y hy hyc
        rcases List.mem_cons.mp hy with rfl | hym
        · exact absurd hyc (by simp [hc])
        · exact hdom y hym hyc

/-! ## Lemmas about the action scheduler -/

/-- `actionDepths` over the empty list. -/
theorem actionDepths_nil (a : CallAction) : actionDepths a [] = [] := rfl

/-- `actionDepths` over a cons cell. -/
theorem actionDepths_cons (a : CallAction) (d : Nat) (act : CallAction)
    (l : List (Nat × CallAction)) :
    actionDepths a ((d, act) :: l) =
      if act = a then d :: actionDepths a l else actionDepths a l := by
  by_cases ha : act = a <;> simp [actionDepths, List.filter_cons, ha]

/-- `actionDepths` over an append. -/
theorem actionDepths_append (a : CallAction) (l1 l2 : List (Nat × CallAction)) :
    actionDepths a (l1 ++ l2) = actionDepths a l1 ++ actionDepths a l2 := by
  simp [actionDepths]

/-- How many copies of an action `trackStep` moves to the immediate list:
one per pending occurrence at depth 0. -/
theorem trackStep_count (a : CallAction) (l : List (Nat × CallAction)) :
    (trackStep l).1.count a = (actionDepths a l).count 0 := by
  induction l with
  | nil => rfl
  | cons p rest ih =>
    obtain ⟨d, act⟩ := p
    rw [actionDepths_cons]
    by_cases hd : d = 0 <;> by_cases ha : act = a <;>
      simp [trackStep, hd, ha, List.count_cons, ih]

/-- The depths of an action's occurrences after `trackStep`: the nonzero
depths, each decremented. -/
theorem trackStep_depths (a : CallAction) (l : List (Nat × CallAction)) :
    actionDepths a (trackStep l).2 =
      ((actionDepths a l).filter fun k => decide (k ≠ 0)).map fun k => k - 1 := by
  induction l with
  | nil => rfl
  | cons p rest ih =>
    obtain ⟨d, act⟩ := p
    rw [actionDepths_cons]
    by_cases hd : d = 0 <;> by_cases ha : act = a <;>
      simp [trackStep, hd, ha, actionDepths_cons, List.filter_cons, ih]

/-- Effect of `track` on the immediate count of an action. -/
theorem track_immCount (a : CallAction) (s : CallActions) :
    s.track.immediate.count a =
      s.immediate.count a + (actionDepths a s.pending).count 0 := by
  simp [CallActions.track, List.count_append, trackStep_count]

/-- Effect of `track` on an action's pending depths. -/
theorem track_depths (a : CallAction) (s : CallActions) :
    actionDepths a s.track.pending =
      ((actionDepths a s.pending).filter fun k => decide (k ≠ 0)).map
        fun k => k - 1 := by
  simp [CallActions.track, trackStep_depths]

/-- An action that occurs nowhere in a scheduler state is never drained. -/
theorem runOps_gone (a : CallAction) (ops : List SchedOp) :
    ∀ s : CallActions, s.immediate.count a = 0 → actionDepths a s.pending = [] →
      (runOps ops s).2.count a = 0 := by
  induction ops with
  | nil => intro s h1 h2; simp [runOps]
  | cons op ops ih =>
    intro s h1 h2
    cases op with
    | track =>
      simp only [runOps]
      exact ih _ (by rw [track_immCount, h1, h2]; rfl) (by rw [track_depths, h2]; rfl)
    | drain =>
      simp only [runOps, CallActions.takeImmediate, List.count_append]
      rw [h1, ih { s with immediate := [] } rfl h2]

/-- An action sitting exactly once in the immediate list is yielded by the
first drain, and only then. -/
theorem runOps_immediate (a : CallAction) (ops : List SchedOp) :
    ∀ s : CallActions, s.immediate.count a = 1 → actionDepths a s.pending = [] →
      (runOps ops s).2.count a = if hasDueDrain 0 ops then 1 else 0 := by
  induction ops with
  | nil => intro s h1 h2; simp [runOps, hasDueDrain]
  | cons op ops ih =>
    intro s h1 h2
    cases op with
    | track =>
      simp only [runOps, hasDueDrain]
      exact ih _ (by rw [track_immCount, h1, h2]; rfl) (by rw [track_depths, h2]; rfl)
    | drain =>
      simp only [runOps, CallActions.takeImmediate, List.count_append, hasDueDrain,
        if_pos rfl]
      rw [h1, runOps_gone a ops { s with immediate := [] } rfl h2]
      simp

/-- An action pending at depth `k` surfaces from a drain exactly when the
drain comes after at least `k + 1` tracks, and then exactly once. -/
theorem runOps_pending (a : CallAction) (ops : List SchedOp) :
    ∀ (s : CallActions) (k : Nat),
      s.immediate.count a = 0 → actionDepths a s.pending = [k] →
      (runOps ops s).2.count a = if hasDueDrain (k + 1) ops then 1 else 0 := by
  induction ops with
  | nil => intro s k h1 h2; simp [runOps, hasDueDrain]
  | cons op ops ih =>
    intro s k h1 h2
    cases op with
    | track =>
      cases k with
      | zero =>
        simp only [runOps]
        have hcnt : s.track.immediate.count a = 1 := by
          rw [track_immCount, h1, h2]; rfl
        have hdep : actionDepths a s.track.pending = [] := by
          rw [track_depths, h2]; rfl
        rw [runOps_immediate a ops s.track hcnt hdep]
        rfl
      | succ j =>
        simp only [runOps]
        have hcnt : s.track.immediate.count a = 0 := by
          rw [track_immCount, h1, h2]; rfl
        have hdep : actionDepths a s.track.pending = [j] := by
          rw [track_depths, h2]; rfl
        rw [ih s.track j hcnt hdep]
        rfl
    | drain =>
      simp only [runOps, CallActions.takeImmediate, List.count_append]
      rw [h1, ih { s with immediate := [] } k rfl h2]
      have : hasDueDrain (k + 1) (SchedOp.drain :: ops) = hasDueDrain (k + 1) ops := by
        simp [hasDueDrain]
      rw [this, Nat.zero_add]

/-- The canonical schedule — exactly `d` tracks then one drain — is due. -/
theorem hasDueDrain_replicate (d : Nat) :
    hasDueDrain d (List.replicate d SchedOp.track ++ [SchedOp.drain]) = true := by
  induction d with
  | zero => rfl
  | succ j ih => simpa [List.replicate_succ, hasDueDrain] using ih

/-! ## Claim theorem: action scheduler -/

/-- Claim C6: an action pushed at depth `d` onto a scheduler state not already
holding it surfaces from the immediate list exactly once over any run of
tracks (advances) and drains: a drain yields it exactly when it comes after
at least `d` advances (instantly for `d = 0`), no drain before the `d`-th
advance yields it, and the total number of times it is yielded over the whole
run is at most one — exactly one on the canonical run of `d` advances followed
by a drain. -/
theorem c6_depth_scheduling (s : CallActions) (d : Nat) (a : CallAction)
    (ops : List SchedOp)
    (h1 : s.immediate.count a = 0) (h2 : actionDepths a s.pending = []) :
    ((runOps ops (s.push d a)).2.count a = if hasDueDrain d ops then 1 else 0)
    ∧ (runOps (List.replicate d SchedOp.track ++ [SchedOp.drain])
        (s.push d a)).2.count a = 1 := by
  have hmain : ∀ ops' : List SchedOp,
      (runOps ops' (s.push d a)).2.count a =
        if hasDueDrain d ops' then 1 else 0 := by
    intro ops'
    cases d with
    | zero =>
      have hcnt : (s.push 0 a).immediate.count a = 1 := by
        simp [CallActions.push, List.count_append, h1]
      have hdep : actionDepths a (s.push 0 a).pending = [] := by
        simp [CallActions.push, h2]
      exact runOps_immediate a ops' _ hcnt hdep
    | succ j =>
      have hcnt : (s.push (j + 1) a).immediate.count a = 0 := by
        simp [CallActions.push, h1]
      have hdep : actionDepths a (s.push (j + 1) a).pending = [j] := by
        simp [CallActions.push, actionDepths_append, h2, actionDepths_cons,
          actionDepths_nil]
      exact runOps_pending a ops' _ j hcnt hdep
  refine ⟨hmain ops, ?_⟩
  rw [hmain _, if_pos (hasDueDrain_replicate d)]

/-- Claim C6, witness: depth 2 — the first two drains (before the second
advance) yield nothing for the action, later drains yield it exactly once in
total, and the canonical two-advances-then-drain run yields it once. -/
theorem c6_witness :
    ((runOps [SchedOp.drain, SchedOp.track, SchedOp.drain, SchedOp.track,
        SchedOp.drain, SchedOp.drain]
        (CallActions.push ⟨[], []⟩ 2 (CallAction.SetThisAddress 3))).2.count
        (CallAction.SetThisAddress 3) = 1)
    ∧ (runOps (List.replicate 2 SchedOp.track ++ [SchedOp.drain])
        (CallActions.push ⟨[], []⟩ 2 (CallAction.SetThisAddress 3))).2.count
        (CallAction.SetThisAddress 3) = 1 :=
  ⟨(c6_depth_scheduling ⟨[], []⟩ 2 (CallAction.SetThisAddress 3)
      [SchedOp.drain, SchedOp.track, SchedOp.drain, SchedOp.track,
        SchedOp.drain, SchedOp.drain] rfl rfl).1,
    (c6_depth_scheduling ⟨[], []⟩ 2 (CallAction.SetThisAddress 3)
      [SchedOp.drain, SchedOp.track, SchedOp.drain, SchedOp.track,
        SchedOp.drain, SchedOp.drain] rfl rfl).2⟩

/-! ## Claim theorems: mock registry -/

/-- Claim C3 is false as stated: the universal form "match returns *that*
exact match's return bytes" fails when both tiers hold an exact candidate.
A value-constrained entry `(1, Some 5, [170]) -> [1]` and an unconstrained
entry `(1, None, [170]) -> [2]` are distinct keys, both exact candidates for
the query `(1, [170], 5)`; the scan returns the value-tier bytes `[1]`, not
the unconstrained exact candidate's `[2]`. -/
theorem c3_counterexample :
    MockedCalls.getMatchingReturnData
        ⟨[(⟨1, some 5, [170]⟩, [1])], [(⟨1, none, [170]⟩, [2])]⟩ 1 [170] 5
      = some [1]
    ∧ isExactCandidate 1 [170] 5 ((⟨1, some 5, [170]⟩ : MockCall), [1]) = true
    ∧ isExactCandidate 1 [170] 5 ((⟨1, none, [170]⟩ : MockCall), [2]) = true
    ∧ ((some [1] : Option (List Nat)) ≠ some [2]) := by
  decide

/-- Claim C3 (amended): whenever any candidate entry is an exact match —
stored calldata length equal to the full query calldata length — the scan
returns the return bytes of the *first* exact candidate in scan order (the
value-constrained tier is scanned before the unconstrained tier), and never
those of a partial (strictly shorter prefix) match. -/
theorem c3_exact_first_wins (m : MockedCalls) (addr : Nat) (cd : List Nat)
    (v : Nat)
    (hex : ∃ x ∈ m.with_value ++ m.without_value,
      isExactCandidate addr cd v x = true) :
    ∃ e, (m.with_value ++ m.without_value).find? (isExactCandidate addr cd v)
        = some e
      ∧ isExactCandidate addr cd v e = true
      ∧ m.getMatchingReturnData addr cd v = some e.2 := by
  obtain ⟨x, hmem, hx⟩ := hex
  have hsome : ((m.with_value ++ m.without_value).find?
      (isExactCandidate addr cd v)).isSome := by
    rw [List.find?_isSome]
    exact ⟨x, hmem, hx⟩
  obtain ⟨e, he⟩ := Option.isSome_iff_exists.mp hsome
  exact ⟨e, he, List.find?_some he, matchLoop_exact addr cd v _ e he none⟩

/-- Claim C3 (amended), witness: on the two-exact registry of the
counterexample the scan returns the first exact candidate's bytes — the
existence hypothesis is discharged with the unconstrained exact entry, yet
the winner is the value-tier one. -/
theorem c3_witness :
    ∃ e, ([((⟨1, some 5, [170]⟩ : MockCall), [1])]
          ++ [((⟨1, none, [170]⟩ : MockCall), [2])]).find?
        (isExactCandidate 1 [170] 5) = some e
      ∧ isExactCandidate 1 [170] 5 e = true
      ∧ MockedCalls.getMatchingReturnData
          ⟨[(⟨1, some 5, [170]⟩, [1])], [(⟨1, none, [170]⟩, [2])]⟩ 1 [170] 5
        = some e.2 :=
  c3_exact_first_wins
    ⟨[(⟨1, some 5, [170]⟩, [1])], [(⟨1, none, [170]⟩, [2])]⟩ 1 [170] 5
    ⟨((⟨1, none, [170]⟩ : MockCall), [2]), by decide, by decide⟩

/-- Claim C4, counterexample: the claim that value-constrained candidates are
tracked independently of unconstrained ones and always take precedence is
false.  Both entries below are non-exact candidates for the query; the
value-constrained entry (return `[1]`) is beaten by the unconstrained entry
(return `[2]`) because the latter's stored prefix is longer — the scan keeps
one shared best-so-far across both tiers. -/
theorem c4_counterexample :
    MockedCalls.getMatchingReturnData
        ⟨[(⟨1, some 5, [170]⟩, [1])], [(⟨1, none, [170, 187]⟩, [2])]⟩
        1 [170, 187, 204] 5 = some [2]
    ∧ ((some [2] : Option (List Nat)) ≠ some [1])
    ∧ isCandidate 1 [170, 187, 204] 5 ((⟨1, some 5, [170]⟩ : MockCall), [1]) = true
    ∧ isCandidate 1 [170, 187, 204] 5 ((⟨1, none, [170, 187]⟩ : MockCall), [2]) = true
    ∧ (∀ x ∈ [((⟨1, some 5, [170]⟩ : MockCall), [1]),
        ((⟨1, none, [170, 187]⟩ : MockCall), [2])],
        isExactCandidate 1 [170, 187, 204] 5 x = false) := by
  decide

/-- Claim C4 (amended): when no exact match exists, the scan keeps a single
shared best-so-far across the value tier and the unconstrained tier: the
candidate with the strictly longest stored-calldata prefix wins regardless of
tier, and among equal prefix lengths the earlier-scanned candidate wins (the
value tier is scanned first, so a value-constrained candidate beats
unconstrained candidates of at most its prefix length, but loses to a strictly
longer unconstrained one).  Formally: if the scanned chain splits as
`l1 ++ e :: l2` where `e` is a candidate, no entry is exact, every candidate
before `e` is strictly shorter and every candidate after `e` is no longer,
then the result is `e`'s return bytes. -/
theorem c4_single_shared_best (m : MockedCalls) (addr : Nat) (cd : List Nat)
    (v : Nat) (l1 l2 : List (MockCall × List Nat)) (e : MockCall × List Nat)
    (hsplit : m.with_value ++ m.without_value = l1 ++ e :: l2)
    (hne : ∀ x ∈ l1 ++ e :: l2, isExactCandidate addr cd v x = false)
    (hce : isCandidate addr cd v e = true)
    (h1 : ∀ x ∈ l1, isCandidate addr cd v x = true →
      x.1.calldata.length < e.1.calldata.length)
    (h2 : ∀ x ∈ l2, isCandidate addr cd v x = true →
      x.1.calldata.length ≤ e.1.calldata.length) :
    m.getMatchingReturnData addr cd v = some e.2 := by
  unfold MockedCalls.getMatchingReturnData
  rw [hsplit]
  exact matchLoop_firstMax addr cd v l1 e l2 hne hce h1 h2 none
    (fun bl br h => Option.noConfusion h)

/-- Claim C4 (amended), witness: on the counterexample registry the longer
unconstrained prefix beats the shorter value-constrained one. -/
theorem c4_witness :
    MockedCalls.getMatchingReturnData
      ⟨[(⟨1, some 5, [170]⟩, [1])], [(⟨1, none, [170, 187]⟩, [2])]⟩
      1 [170, 187, 204] 5 = some [2] :=
  c4_single_shared_best
    ⟨[(⟨1, some 5, [170]⟩, [1])], [(⟨1, none, [170, 187]⟩, [2])]⟩
    1 [170, 187, 204] 5 [(⟨1, some 5, [170]⟩, [1])] []
    ((⟨1, none, [170, 187]⟩ : MockCall), [2])
    (by decide) (by decide) (by decide) (by decide) (by decide)

/-- Claim C5: with exactly the unconstrained entries
`(A, None, [0xAA,0xBB]) -> [1]` and `(A, None, [0xAA,0xBB,0xCC,0xDD]) -> [2]`
and any query value, the full query returns `[2]` (exact), the three-byte
query returns `[1]` (longest prefix), and `[0xBB]` returns `none` (no
candidate). -/
theorem c5_longest_prefix_examples (v : Nat) :
    MockedCalls.getMatchingReturnData
        ⟨[], [(⟨1, none, [170, 187]⟩, [1]), (⟨1, none, [170, 187, 204, 221]⟩, [2])]⟩
        1 [170, 187, 204, 221] v = some [2]
    ∧ MockedCalls.getMatchingReturnData
        ⟨[], [(⟨1, none, [170, 187]⟩, [1]), (⟨1, none, [170, 187, 204, 221]⟩, [2])]⟩
        1 [170, 187, 204] v = some [1]
    ∧ MockedCalls.getMatchingReturnData
        ⟨[], [(⟨1, none, [170, 187]⟩, [1]), (⟨1, none, [170, 187, 204, 221]⟩, [2])]⟩
        1 [187] v = none :=
  ⟨rfl, rfl, rfl⟩

/-- Claim C10: a registry entry with empty stored calldata is a candidate for
every query to its address that satisfies its value constraint (the empty
byte string prefixes everything); it is an exact match precisely when the
query calldata is also empty; otherwise it is a length-0 prefix candidate
that loses to any candidate with a nonempty stored prefix — the scan then
returns the bytes of some candidate of prefix length at least 1. -/
theorem c10_empty_calldata_catch_all (m : MockedCalls) (addr : Nat)
    (cd : List Nat) (v : Nat) (e c : MockCall × List Nat)
    (he : e ∈ m.with_value ++ m.without_value)
    (hcd : e.1.calldata = [])
    (ha : e.1.address = addr)
    (hv : valueMatches e.1.value v = true) :
    isCandidate addr cd v e = true
    ∧ (isExactCandidate addr cd v e = true ↔ cd = [])
    ∧ ((∀ x ∈ m.with_value ++ m.without_value,
          isExactCandidate addr cd v x = false) →
        c ∈ m.with_value ++ m.without_value →
        isCandidate addr cd v c = true →
        c.1.calldata ≠ [] →
        ∃ w, w ∈ m.with_value ++ m.without_value ∧ isCandidate addr cd v w = true ∧
          1 ≤ w.1.calldata.length ∧
          m.getMatchingReturnData addr cd v = some w.2) := by
  have hpre : e.1.calldata.isPrefixOf cd = true := by
    rw [hcd]; cases cd <;> rfl
  have hcand : isCandidate addr cd v e = true := by
    simp [isCandidate, ha, hv, hpre]
  refine ⟨hcand, ?_, ?_⟩
  · simp [isExactCandidate, hcand, hcd, eq_comm (a := (0 : Nat)),
      List.length_eq_zero]
  · intro hne hcm hcc hcne
    have hsome := matchLoop_isSome_of_candidate addr cd v _ c hcm hcc none
    obtain ⟨r, hr⟩ := Option.isSome_iff_exists.mp hsome
    rcases matchLoop_max addr cd v _ hne none r hr with
      ⟨bl, hbl, _⟩ | ⟨x, hmem, hxc, hrx, hdom, _⟩
    · exact Option.noConfusion hbl
    · refine ⟨x, hmem, hxc, ?_, ?_⟩
      · have hc1 : 1 ≤ c.1.calldata.length := by
          cases hcl : c.1.calldata with
          | nil => exact absurd hcl hcne
          | cons a as => simp [hcl]
        exact hc1.trans (hdom c hcm hcc)
      · show m.getMatchingReturnData addr cd v = some x.2
        unfold MockedCalls.getMatchingReturnData
        rw [hr, hrx]

/-- Claim C10, witness: an empty-calldata catch-all entry loses to a
one-byte prefix entry on a nonempty query. -/
theorem c10_witness :
    ∃ w, w ∈ [((⟨1, none, []⟩ : MockCall), [9]), ((⟨1, none, [170]⟩ : MockCall), [7])]
      ∧ isCandidate 1 [170, 187] 0 w = true
      ∧ 1 ≤ w.1.calldata.length
      ∧ MockedCalls.getMatchingReturnData
          ⟨[], [(⟨1, none, []⟩, [9]), (⟨1, none, [170]⟩, [7])]⟩
          1 [170, 187] 0 = some w.2 :=
  (c10_empty_calldata_catch_all
      ⟨[], [(⟨1, none, []⟩, [9]), (⟨1, none, [170]⟩, [7])]⟩
      1 [170, 187] 0 ((⟨1, none, []⟩ : MockCall), [9])
      ((⟨1, none, [170]⟩ : MockCall), [7])
      (by decide) rfl rfl rfl).2.2
    (by decide) (by decide) (by decide) (by decide)

/-! ## Claim theorems: immediate returns -/

/-- Claim C1: with a recorded Mimic call and a `before` snapshot, the built
`ImmediateReturn` takes its return memory page from `after.base_memory_page`
when an `after` snapshot exists and from `before.base_memory_page` otherwise,
copies `before.is_local_frame` into `next_is_local_frame` unchanged, and
fills every other next-field exactly as in the Normal/Delegate case. -/
theorem c1_mimic_immediate_return (h : FarCallHandler) (before : CallStackEntry)
    (rd : List Nat)
    (hcall : h.current_far_call = some FarCallOpcode.Mimic)
    (hb : h.before_far_call_stack = some before) :
    (∀ after, h.after_far_call_stack = some after →
      (h.setImmediateReturn rd).immediate_return = some
        { return_data := rd
          return_base_memory_page := after.base_memory_page
          next_pc := saturatingAdd1U16 before.pc
          next_code_page := before.code_page
          next_base_memory_page := before.base_memory_page
          next_sp := before.sp
          next_exception_handler_location := before.exception_handler_location
          next_this_address := before.this_address
          next_is_local_frame := before.is_local_frame
          next_context_u128_value := 0 })
    ∧ (h.after_far_call_stack = none →
      (h.setImmediateReturn rd).immediate_return = some
        { return_data := rd
          return_base_memory_page := before.base_memory_page
          next_pc := saturatingAdd1U16 before.pc
          next_code_page := before.code_page
          next_base_memory_page := before.base_memory_page
          next_sp := before.sp
          next_exception_handler_location := before.exception_handler_location
          next_this_address := before.this_address
          next_is_local_frame := before.is_local_frame
          next_context_u128_value := 0 }) := by
  constructor
  · intro after hafter
    simp [FarCallHandler.setImmediateReturn, hcall, hb, hafter]
  · intro hafter
    simp [FarCallHandler.setImmediateReturn, hcall, hb, hafter]

/-- Sample `before` frame used by the immediate-return witnesses. -/
def sampleBefore : CallStackEntry := ⟨5, 9, 11, 20, 30, 77, 88, true, 3⟩

/-- Sample `after` frame used by the immediate-return witnesses. -/
def sampleAfter : CallStackEntry := ⟨6, 10, 12, 40, 50, 99, 100, false, 4⟩

/-- Sample handler with a recorded Mimic call. -/
def sampleMimicHandler : FarCallHandler :=
  ⟨some sampleBefore, some sampleAfter, some FarCallOpcode.Mimic, none, ⟨[], []⟩⟩

/-- Sample handler with a recorded Normal call and no `after` snapshot. -/
def sampleNormalHandler : FarCallHandler :=
  ⟨some sampleBefore, none, some FarCallOpcode.Normal, none, ⟨[], []⟩⟩

/-- Sample VM state used by the immediate-return witnesses. -/
def sampleVmState : ZkSyncVmStateModel :=
  ⟨fun _ => ⟨0, false⟩, fun _ _ => 0, ⟨1, 2, 3, 4, 5, 6, 7, false, 8⟩, 0⟩

/-- Claim C1, witness: Mimic with an `after` snapshot — the return page is 40
(`after`'s base page, not `before`'s 20) and the local-frame flag stays
`true`. -/
theorem c1_witness :
    (sampleMimicHandler.setImmediateReturn [7]).immediate_return =
      some ⟨[7], 40, 6, 30, 20, 9, 11, 77, true, 0⟩ :=
  (c1_mimic_immediate_return sampleMimicHandler sampleBefore [7] rfl rfl).1
    sampleAfter rfl

/-- Claim C2: with a recorded Normal or Delegate call and a `before`
snapshot, the built `ImmediateReturn` has
`return_base_memory_page = before.base_memory_page`,
`next_pc = before.pc + 1` saturating, the code page, base page, sp, exception
handler and this-address copied verbatim from `before`,
`next_is_local_frame = false` and `next_context_u128_value = 0`; applying it
through `maybe_return_early` overwrites the current top frame's corresponding
fields with exactly these values. -/
theorem c2_normal_delegate_immediate_return (h : FarCallHandler)
    (before : CallStackEntry) (rd : List Nat) (state : ZkSyncVmStateModel)
    (hcall : h.current_far_call = some FarCallOpcode.Normal ∨
      h.current_far_call = some FarCallOpcode.Delegate)
    (hb : h.before_far_call_stack = some before) :
    (h.setImmediateReturn rd).immediate_return = some
      { return_data := rd
        return_base_memory_page := before.base_memory_page
        next_pc := saturatingAdd1U16 before.pc
        next_code_page := before.code_page
        next_base_memory_page := before.base_memory_page
        next_sp := before.sp
        next_exception_handler_location := before.exception_handler_location
        next_this_address := before.this_address
        next_is_local_frame := false
        next_context_u128_value := 0 }
    ∧ ((h.setImmediateReturn rd).maybeReturnEarly state).2.callstack_current =
      { state.callstack_current with
        pc := saturatingAdd1U16 before.pc
        base_memory_page := before.base_memory_page
        code_page := before.code_page
        context_u128_value := 0
        sp := before.sp
        exception_handler_location := before.exception_handler_location
        this_address := before.this_address
        is_local_frame := false } := by
  have hir : (h.setImmediateReturn rd).immediate_return = some
      { return_data := rd
        return_base_memory_page := before.base_memory_page
        next_pc := saturatingAdd1U16 before.pc
        next_code_page := before.code_page
        next_base_memory_page := before.base_memory_page
        next_sp := before.sp
        next_exception_handler_location := before.exception_handler_location
        next_this_address := before.this_address
        next_is_local_frame := false
        next_context_u128_value := 0 } := by
    rcases hcall with hc | hc <;> simp [FarCallHandler.setImmediateReturn, hc, hb]
  exact ⟨hir, by simp [FarCallHandler.maybeReturnEarly, hir]⟩

/-- Claim C2, witness: a Normal call's immediate return rewrites the top
frame to `before`'s control fields with pc incremented, local flag false and
context value zero (the frame's own code address is untouched). -/
theorem c2_witness :
    ((sampleNormalHandler.setImmediateReturn [7]).maybeReturnEarly
      sampleVmState).2.callstack_current = ⟨6, 9, 11, 20, 30, 77, 7, false, 0⟩ :=
  (c2_normal_delegate_immediate_return sampleNormalHandler sampleBefore [7]
    sampleVmState (Or.inl rfl) rfl).2

/-- Claim C8: `set_immediate_return` with no `before` snapshot (no active far
call) leaves the handler completely unchanged — in particular the pending
immediate-return slot is not set; the condition is recoverable (a logged
warning), not a failure. -/
theorem c8_no_before_no_change (h : FarCallHandler) (rd : List Nat)
    (hb : h.before_far_call_stack = none) :
    h.setImmediateReturn rd = h := by
  cases hcur : h.current_far_call with
  | none => simp [FarCallHandler.setImmediateReturn, hcur]
  | some call =>
    cases call <;> simp [FarCallHandler.setImmediateReturn, hcur, hb]

/-- Claim C8, witness: a handler with a recorded opcode but no `before`
snapshot is returned unchanged. -/
theorem c8_witness :
    FarCallHandler.setImmediateReturn
        ⟨none, none, some FarCallOpcode.Normal, none, ⟨[], []⟩⟩ [1, 2, 3]
      = ⟨none, none, some FarCallOpcode.Normal, none, ⟨[], []⟩⟩ :=
  c8_no_before_no_change ⟨none, none, some FarCallOpcode.Normal, none, ⟨[], []⟩⟩
    [1, 2, 3] rfl

/-! ## Claim theorems: far-call parsing -/

/-- Claim C7: when the implicit-calldata register is pointer-tagged, `parse`
on a frame whose code address is the value-simulator system address yields a
`ValueCall` whose value is the low 128 bits of the first extra ABI register,
whose recipient is the second extra register narrowed to an address (low 160
bits), and whose system flag is bit 1 of the third extra register; on any
other code address it yields a `SimpleCall` whose value is the frame's
context value and whose calldata is the full fat-pointer-referenced byte
range. -/
theorem c7_parse_classification (state : VmLocalStateDataModel)
    (memory : SimpleMemoryModel)
    (hptr : (state.registers CALL_IMPLICIT_CALLDATA_FAT_PTR_REGISTER).is_pointer
      = true) :
    (state.callstack_current.code_address = MSG_VALUE_SIMULATOR_ADDRESS →
      parse state memory = some (ParsedFarCall.ValueCall
        state.callstack_current.code_address
        ((state.registers MSG_VALUE_SIMULATOR_DATA_VALUE_REG).value % 2 ^ 128)
        (readUnalignedBytes memory
          (FatPointer.fromU256 (state.registers
            CALL_IMPLICIT_CALLDATA_FAT_PTR_REGISTER).value).memory_page
          (FatPointer.fromU256 (state.registers
            CALL_IMPLICIT_CALLDATA_FAT_PTR_REGISTER).value).start
          (FatPointer.fromU256 (state.registers
            CALL_IMPLICIT_CALLDATA_FAT_PTR_REGISTER).value).length)
        ((state.registers MSG_VALUE_SIMULATOR_DATA_ADDRESS_REG).value % 2 ^ 160)
        ((state.registers MSG_VALUE_SIMULATOR_DATA_IS_SYSTEM_REG).value.testBit
          MSG_VALUE_SIMULATOR_IS_SYSTEM_BIT)))
    ∧ (state.callstack_current.code_address ≠ MSG_VALUE_SIMULATOR_ADDRESS →
      parse state memory = some (ParsedFarCall.SimpleCall
        state.callstack_current.code_address
        state.callstack_current.context_u128_value
        (readUnalignedBytes memory
          (FatPointer.fromU256 (state.registers
            CALL_IMPLICIT_CALLDATA_FAT_PTR_REGISTER).value).memory_page
          (FatPointer.fromU256 (state.registers
            CALL_IMPLICIT_CALLDATA_FAT_PTR_REGISTER).value).start
          (FatPointer.fromU256 (state.registers
            CALL_IMPLICIT_CALLDATA_FAT_PTR_REGISTER).value).length))) := by
  constructor <;> intro haddr <;> simp [parse, hptr, haddr]

/-- Sample parse state: register 1 carries a pointer-tagged fat pointer
(page 1, start 0, length 2); the frame's code address 7 is not the
value-simulator address. -/
def sampleParseState : VmLocalStateDataModel :=
  ⟨fun i => if i = 1 then ⟨2 * 2 ^ 96 + 1 * 2 ^ 32, true⟩ else ⟨0, false⟩,
    ⟨5, 9, 11, 20, 30, 77, 7, false, 8⟩⟩

/-- Sample byte memory: the byte at index `i` of any page is `i`. -/
def sampleMemory : SimpleMemoryModel := ⟨fun _ i => i⟩

/-- Claim C7, witness: a non-value-simulator frame parses to a `SimpleCall`
with the frame's context value 8 and the two fat-pointer bytes `[0, 1]`. -/
theorem c7_witness :
    parse sampleParseState sampleMemory =
      some (ParsedFarCall.SimpleCall 7 8 [0, 1]) :=
  (c7_parse_classification sampleParseState sampleMemory rfl).2 (by decide)

/-- Claim C9: on calldata strictly shorter than 4 bytes, `params` and
`param_bytes_after` both panic on the unconditional slice `calldata[4..]`
(embedded as `none`), while `selector` alone guards the short case and
returns the empty string; when the calldata has at least 4 bytes the slice
succeeds and `param_bytes_after` is panic-free. -/
theorem c9_short_calldata_not_total (c : ParsedFarCall) (n : Nat) :
    (c.calldata.length < 4 →
      sliceFrom c.calldata 4 = none ∧ c.params = none ∧
        c.paramBytesAfter n = none ∧ c.selector = String.mk [])
    ∧ (4 ≤ c.calldata.length →
      (sliceFrom c.calldata 4).isSome ∧ (c.paramBytesAfter n).isSome) := by
  constructor
  · intro hlen
    have hslice : sliceFrom c.calldata 4 = none := by
      simp only [sliceFrom, ite_eq_right_iff]
      intro hc
      omega
    refine ⟨hslice, ?_, ?_, ?_⟩
    · simp [ParsedFarCall.params, hslice]
    · simp [ParsedFarCall.paramBytesAfter, hslice]
    · simp [ParsedFarCall.selector, hlen]
  · intro hlen
    have hslice : sliceFrom c.calldata 4 = some (c.calldata.drop 4) := by
      simp [sliceFrom, hlen]
    refine ⟨by simp [hslice], ?_⟩
    simp only [ParsedFarCall.paramBytesAfter, hslice]
    split <;> simp

/-- Claim C9, witness: one-byte calldata makes `params` and
`param_bytes_after` panic while `selector` returns the empty string;
five-byte calldata makes the slice and `param_bytes_after` succeed. -/
theorem c9_witness :
    (sliceFrom [170] 4 = none
      ∧ (ParsedFarCall.SimpleCall 1 0 [170]).params = none
      ∧ (ParsedFarCall.SimpleCall 1 0 [170]).paramBytesAfter 0 = none
      ∧ (ParsedFarCall.SimpleCall 1 0 [170]).selector = String.mk [])
    ∧ ((sliceFrom [1, 2, 3, 4, 5] 4).isSome
      ∧ ((ParsedFarCall.SimpleCall 1 0 [1, 2, 3, 4, 5]).paramBytesAfter 0).isSome) :=
  ⟨(c9_short_calldata_not_total (ParsedFarCall.SimpleCall 1 0 [170]) 0).1
      (by decide),
    (c9_short_calldata_not_total (ParsedFarCall.SimpleCall 1 0 [1, 2, 3, 4, 5]) 0).2
      (by decide)⟩

end Farcall
